import Mathlib

/-!
Verification of goreinstall (github.com/simplylib/goreinstall).

Shallow embedding of the decision-and-execution engine of `gobin.go`:
the semantic-version comparison from `golang.org/x/mod/semver`, the
module-path/version validation and escaping from `golang.org/x/mod/module`,
the context-checking reader `ctxReaderAt`, the metadata extractor
`getGoBinaryInfo`, and the per-item update/reinstall actions of
`updateBinaries` / `reinstallBinaries`.

Go strings are modelled as `List Char` (all the characters the code
inspects are ASCII, where Go's byte indexing and rune ranging coincide).
-/

namespace semver

/-- Embeds isIdentChar from golang.org/x/mod/semver: ASCII letters, digits
and the hyphen. -/
def isIdentChar (c : Char) : Bool :=
  c.isUpper || c.isLower || c.isDigit || c == '-'

/-- Embeds isBadNum from golang.org/x/mod/semver: an all-digit identifier of
length greater than one with a leading zero. -/
def isBadNum (v : List Char) : Bool :=
  v.all Char.isDigit && decide (1 < v.length) && v.head? == some '0'

/-- Embeds isNum from golang.org/x/mod/semver: every character is a digit
(true for the empty string, as in the source). -/
def isNum (v : List Char) : Bool :=
  v.all Char.isDigit

/-- Splits a character list at every occurrence of the separator, keeping
empty segments, mirroring how the Go scanning loops in parsePrerelease,
parseBuild and comparePrerelease delimit identifiers at dots. -/
def splitSeg (sep : Char) : List Char → List (List Char)
  | [] => [[]]
  | c :: rest =>
    if c = sep then [] :: splitSeg sep rest
    else
      match splitSeg sep rest with
      | [] => [[c]]
      | s :: ss => (c :: s) :: ss

/-- Embeds parseInt from golang.org/x/mod/semver: a nonempty digit run with
no leading zero (unless it is exactly "0"), returning the digits and the
rest of the input. -/
def parseInt : List Char → Option (List Char × List Char)
  | [] => none
  | c :: rest =>
    if ¬ c.isDigit then none
    else
      let ds := rest.takeWhile Char.isDigit
      let rest2 := rest.dropWhile Char.isDigit
      if c = '0' ∧ ds ≠ [] then none
      else some (c :: ds, rest2)

/-- Embeds parsePrerelease from golang.org/x/mod/semver: a leading dash,
then dot-separated identifiers up to a plus sign or the end, every
character an identifier character, every identifier nonempty and not a
numeric identifier with a leading zero. The returned token includes the
leading dash, as in the source. -/
def parsePrerelease : List Char → Option (List Char × List Char)
  | '-' :: rest =>
    let body := rest.takeWhile (fun c => c ≠ '+')
    let rest2 := rest.dropWhile (fun c => c ≠ '+')
    if body.all (fun c => isIdentChar c || c == '.') &&
        (splitSeg '.' body).all (fun seg => ¬ seg.isEmpty && ¬ isBadNum seg) then
      some ('-' :: body, rest2)
    else none
  | _ => none

/-- Embeds parseBuild from golang.org/x/mod/semver: a leading plus, then
dot-separated nonempty identifier segments running to the end of the
input. The returned token includes the leading plus. -/
def parseBuild : List Char → Option (List Char × List Char)
  | '+' :: rest =>
    if rest.all (fun c => isIdentChar c || c == '.') &&
        (splitSeg '.' rest).all (fun seg => ¬ seg.isEmpty) then
      some ('+' :: rest, [])
    else none
  | _ => none

/-- Embeds the parsed struct of golang.org/x/mod/semver; the fields are kept
as strings exactly as in the source, since compareInt compares the digit
strings, not converted integers. -/
structure Parsed where
  major : List Char
  minor : List Char
  patch : List Char
  prerelease : List Char
  build : List Char
deriving DecidableEq, Repr

/-- Embeds the tail of parse from golang.org/x/mod/semver: after the patch
number, an optional prerelease (only when the next character is a dash),
an optional build suffix (only when the next character is a plus), and
then the input must be exhausted. -/
def parseTail (v : List Char) : Option (List Char × List Char) :=
  let step1 : Option (List Char × List Char) :=
    match v with
    | '-' :: _ => parsePrerelease v
    | _ => some ([], v)
  match step1 with
  | none => none
  | some (pre, v4) =>
    match v4 with
    | '+' :: _ =>
      match parseBuild v4 with
      | none => none
      | some (bld, v5) => if v5 = [] then some (pre, bld) else none
    | [] => some (pre, [])
    | _ => none

/-- Embeds parse from golang.org/x/mod/semver: a leading letter v, then
major, optionally dot minor, optionally dot patch (missing minor/patch
default to "0"), then prerelease and build suffixes. -/
def parse (v : List Char) : Option Parsed :=
  match v with
  | 'v' :: rest =>
    match parseInt rest with
    | none => none
    | some (major, v1) =>
      if v1 = [] then some ⟨major, ['0'], ['0'], [], []⟩
      else
        match v1 with
        | '.' :: v1a =>
          match parseInt v1a with
          | none => none
          | some (minor, v2) =>
            if v2 = [] then some ⟨major, minor, ['0'], [], []⟩
            else
              match v2 with
              | '.' :: v2a =>
                match parseInt v2a with
                | none => none
                | some (patch, v3) =>
                  match parseTail v3 with
                  | none => none
                  | some (pre, bld) => some ⟨major, minor, patch, pre, bld⟩
              | _ => none
        | _ => none
  | _ => none

/-- Embeds Go's byte-wise string comparison x < y used by compareInt and
comparePrerelease (our characters are ASCII wherever the code compares). -/
def goStringLt : List Char → List Char → Bool
  | [], [] => false
  | [], _ :: _ => true
  | _ :: _, [] => false
  | a :: xs, b :: ys => if a = b then goStringLt xs ys else decide (a < b)

/-- Embeds compareInt from golang.org/x/mod/semver: equal strings are equal,
shorter digit strings are smaller, equal-length strings compare
lexicographically. -/
def compareInt (x y : List Char) : Int :=
  if x = y then 0
  else if x.length < y.length then -1
  else if y.length < x.length then 1
  else if goStringLt x y then -1 else 1

/-- Embeds the identifier comparison inside comparePrerelease from
golang.org/x/mod/semver, for two distinct identifiers: numeric compares
below alphanumeric, numeric identifiers compare by length then
lexicographically, others lexicographically. -/
def compareIdent (dx dy : List Char) : Int :=
  let ix := isNum dx
  let iy := isNum dy
  if ix ≠ iy then (if ix = true then -1 else 1)
  else if ix = true ∧ dx.length < dy.length then -1
  else if ix = true ∧ dy.length < dx.length then 1
  else if goStringLt dx dy then -1 else 1

/-- Embeds the scanning loop of comparePrerelease from
golang.org/x/mod/semver, rendered over the dot-separated identifier lists
that nextIdent produces: pairwise comparison until a mismatch, a shorter
identifier list comparing below a longer one. -/
def compareIdentList : List (List Char) → List (List Char) → Int
  | [], _ => -1
  | _ :: _, [] => 1
  | dx :: xs, dy :: ys =>
    if dx = dy then compareIdentList xs ys else compareIdent dx dy

/-- Embeds comparePrerelease from golang.org/x/mod/semver: an empty
prerelease (a release version) compares above any nonempty prerelease;
otherwise the dash is skipped and dot-separated identifiers are compared
in order. -/
def comparePrerelease (x y : List Char) : Int :=
  if x = y then 0
  else if x = [] then 1
  else if y = [] then -1
  else compareIdentList (splitSeg '.' (x.drop 1)) (splitSeg '.' (y.drop 1))

/-- Embeds Compare from golang.org/x/mod/semver: two invalid versions are
equal, an invalid version compares below a valid one, and valid versions
compare by major, minor, patch, then prerelease. -/
def compare (v w : List Char) : Int :=
  match parse v, parse w with
  | none, none => 0
  | none, some _ => -1
  | some _, none => 1
  | some pv, some pw =>
    let c1 := compareInt pv.major pw.major
    if c1 ≠ 0 then c1
    else
      let c2 := compareInt pv.minor pw.minor
      if c2 ≠ 0 then c2
      else
        let c3 := compareInt pv.patch pw.patch
        if c3 ≠ 0 then c3
        else comparePrerelease pv.prerelease pw.prerelease

/-- Embeds semver.Compare on Lean strings. -/
def Compare (v w : String) : Int := compare v.data w.data

/-- Embeds semver.IsValid: whether parse succeeds. -/
def IsValidL (v : List Char) : Bool := (parse v).isSome

end semver

/-- Embeds strings.Replace(s, "go", "v", 1) as used by reinstallBinaries in
src/gobin.go: the first occurrence of the two-character substring "go"
anywhere in the string is replaced by "v"; a string without "go" is
returned unchanged. -/
def goToVL : List Char → List Char
  | 'g' :: 'o' :: rest => 'v' :: rest
  | c :: rest => c :: goToVL rest
  | [] => []

/-- String wrapper for the go-to-v first-occurrence rewrite. -/
def goToV (s : String) : String := ⟨goToVL s.data⟩

namespace gomodule

/-- Embeds firstPathOK from golang.org/x/mod/module: characters allowed in
the first element of a module path (dash, dot, digits, lowercase). -/
def firstPathOK (c : Char) : Bool :=
  c == '-' || c == '.' || c.isDigit || c.isLower

/-- Embeds modPathOK from golang.org/x/mod/module: ASCII dash, dot,
underscore, tilde, digits and letters; every non-ASCII rune is rejected. -/
def modPathOK (c : Char) : Bool :=
  if c.toNat < 128 then
    c == '-' || c == '.' || c == '_' || c == '~' ||
      c.isDigit || c.isUpper || c.isLower
  else false

/-- Embeds fileNameOK from golang.org/x/mod/module. ASCII alphanumerics and
a fixed punctuation set are allowed; for non-ASCII runes the source calls
unicode.IsLetter, which is taken here as an abstract predicate parameter
(the Unicode letter table is outside the embedding). -/
def fileNameOK (uL : Char → Bool) (c : Char) : Bool :=
  if c.toNat < 128 then
    if c.isDigit || c.isUpper || c.isLower then true
    else "!#$%&()+,-.=@[]^_\x7b\x7d~".data.contains c
  else uL c

/-- Embeds badWindowsNames from golang.org/x/mod/module. -/
def badWindowsNames : List String :=
  ["CON", "PRN", "AUX", "NUL",
   "COM1", "COM2", "COM3", "COM4", "COM5", "COM6", "COM7", "COM8", "COM9",
   "LPT1", "LPT2", "LPT3", "LPT4", "LPT5", "LPT6", "LPT7", "LPT8", "LPT9"]

/-- Embeds strings.EqualFold as used against badWindowsNames: the names are
ASCII, so the fold is ASCII case-insensitive comparison. -/
def eqFoldAscii (a b : List Char) : Bool :=
  a.map Char.toLower == b.map Char.toLower

/-- Path kinds distinguished by golang.org/x/mod/module (the importPath
kind is unused by this repository). -/
inductive PathKind
  | modulePath
  | filePath
deriving DecidableEq, Repr

/-- Embeds checkElem from golang.org/x/mod/module: a path element must be
nonempty, not all dots, without a leading dot (for module paths), without
a trailing dot, with every character allowed by the kind, not a reserved
Windows device name up to the first dot, and (for file paths) not a
Windows short-name pattern of trailing tilde and digits. Error messages
are abbreviated from the source's formatted messages. -/
def checkElem (kind : PathKind) (uL : Char → Bool) (elem : List Char) :
    Option String :=
  if elem = [] then some "empty path element"
  else if elem.all (fun c => c == '.') then some "invalid path element"
  else if elem.head? = some '.' ∧ kind = PathKind.modulePath then
    some "leading dot in path element"
  else if elem.getLast? = some '.' then some "trailing dot in path element"
  else if ¬ elem.all (fun c =>
      match kind with
      | PathKind.modulePath => modPathOK c
      | PathKind.filePath => fileNameOK uL c) then
    some "invalid char in path element"
  else
    let short := elem.takeWhile (fun c => c ≠ '.')
    if badWindowsNames.any (fun bad => eqFoldAscii bad.data short) then
      some "disallowed path element component on Windows"
    else if kind = PathKind.filePath then
      let suffix := ((short.reverse).takeWhile (fun c => c ≠ '~')).reverse
      if short.contains '~' ∧ suffix ≠ [] ∧ suffix.all Char.isDigit then
        some "trailing tilde and digits in path element"
      else none
    else none

/-- Detects two adjacent slashes, embedding strings.Contains(path, "//"). -/
def hasDoubleSlash : List Char → Bool
  | '/' :: '/' :: _ => true
  | _ :: rest => hasDoubleSlash rest
  | [] => false

/-- Embeds checkPath from golang.org/x/mod/module: nonempty, no leading
dash (for module paths), no double or trailing slash, and every
slash-separated element valid. The utf8.ValidString guard of the source
is inherently satisfied by the Lean string model. -/
def checkPath (kind : PathKind) (uL : Char → Bool) (path : List Char) :
    Option String :=
  if path = [] then some "empty string"
  else if path.head? = some '-' ∧ kind ≠ PathKind.filePath then
    some "leading dash"
  else if hasDoubleSlash path then some "double slash"
  else if path.getLast? = some '/' then some "trailing slash"
  else ((semver.splitSeg '/' path).filterMap (checkElem kind uL)).head?

/-- Embeds splitGopkgIn from golang.org/x/mod/module, keeping only the ok
result used by CheckPath: a gopkg.in path must end in .vN (optionally
followed by -unstable), with no leading zero in N unless the suffix is
exactly .v0. -/
def splitGopkgInOk (path : List Char) : Bool :=
  if ¬ "gopkg.in/".data.isPrefixOf path then false
  else
    let unstable := "-unstable".data.isSuffixOf path
    let base := if unstable then path.take (path.length - 9) else path
    let digits := (base.reverse.takeWhile Char.isDigit).reverse
    let front := base.take (base.length - digits.length)
    if front.length ≤ 1 ∨ front.getLast? ≠ some 'v' ∨
        front.dropLast.getLast? ≠ some '.' then false
    else
      let pathMajor := '.' :: 'v' :: (digits ++
        (if unstable then "-unstable".data else []))
      if pathMajor.length ≤ 2 ∨
          (pathMajor.get? 2 = some '0' ∧ pathMajor ≠ ".v0".data) then false
      else true

/-- Embeds the ok result of SplitPathVersion from golang.org/x/mod/module:
a path either carries no /vN suffix (then ok), or carries one with N a
dot-free number without leading zero and different from 1. -/
def splitPathVersionOk (path : List Char) : Bool :=
  if "gopkg.in/".data.isPrefixOf path then splitGopkgInOk path
  else
    let tailRev := path.reverse.takeWhile (fun c => c.isDigit || c = '.')
    let front := (path.reverse.dropWhile (fun c => c.isDigit || c = '.')).reverse
    let dot := tailRev.contains '.'
    if front.length ≤ 1 ∨ tailRev = [] ∨ front.getLast? ≠ some 'v' ∨
        front.dropLast.getLast? ≠ some '/' then true
    else
      let num := tailRev.reverse
      if dot ∨ num = [] ∨ num.head? = some '0' ∨ num = ['1'] then false
      else true

/-- Embeds CheckPath from golang.org/x/mod/module: the generic checkPath
for module paths, then the first path element must contain a dot, not
start with a dash, use only firstPathOK characters, and the whole path
must split cleanly as a path-version pair. -/
def CheckPath (uL : Char → Bool) (path : String) : Option String :=
  match checkPath PathKind.modulePath uL path.data with
  | some e => some e
  | none =>
    let first := path.data.takeWhile (fun c => c ≠ '/')
    if first = [] then some "leading slash"
    else if ¬ first.contains '.' then some "missing dot in first path element"
    else if path.data.head? = some '-' then some "leading dash in first path element"
    else if ¬ first.all firstPathOK then some "invalid char in first path element"
    else if ¬ splitPathVersionOk path.data then some "invalid version"
    else none

/-- Embeds escapeString from golang.org/x/mod/module: rejects an
exclamation mark or any non-ASCII rune, returns the string unchanged when
it has no uppercase letter, and otherwise rewrites every uppercase letter
X as !x. -/
def escapeString (s : List Char) : Except String (List Char) :=
  if s.any (fun c => c == '!' || decide (128 ≤ c.toNat)) then
    Except.error "internal error: inconsistency in EscapePath"
  else if ¬ s.any Char.isUpper then Except.ok s
  else Except.ok (s.flatMap fun c => if c.isUpper then ['!', c.toLower] else [c])

/-- Embeds EscapePath from golang.org/x/mod/module: CheckPath first, then
escapeString; an invalid path is rejected before any escaping. -/
def EscapePath (uL : Char → Bool) (path : String) : Except String String :=
  match CheckPath uL path with
  | some e => Except.error e
  | none =>
    match escapeString path.data with
    | Except.error e => Except.error e
    | Except.ok es => Except.ok ⟨es⟩

/-- Embeds EscapeVersion from golang.org/x/mod/module: the version must be
a valid file-path element without an exclamation mark, then it is escaped
like a path. -/
def EscapeVersion (uL : Char → Bool) (v : String) : Except String String :=
  if (checkElem PathKind.filePath uL v.data).isSome || v.data.contains '!' then
    Except.error "disallowed version string"
  else
    match escapeString v.data with
    | Except.error e => Except.error e
    | Except.ok es => Except.ok ⟨es⟩

end gomodule

/-- Embeds errCtxReaderCancelled from src/gobin.go. -/
def errCtxReaderCancelled : String := "goreinstall: context reader cancelled"

/-- Embeds ctxReaderAt.ReadAt from src/gobin.go. The receiver's context is
modelled by whether its Done channel is closed at the time of the call (a
context's Done channel is only ever closed, never sent a value, so the
source's ok branch means closed). A closed Done channel yields zero bytes
and the dedicated cancelled error without consulting the underlying
reader, whose ReadAt is an abstract function of the buffer length and the
offset; otherwise the underlying reader's result is returned as is. -/
def ctxReadAt (doneClosed : Bool) (readAt : Nat → Int → Nat × Option String)
    (p : Nat) (off : Int) : Nat × Option String :=
  if doneClosed then (0, some errCtxReaderCancelled)
  else readAt p off

/-- Embeds debug/buildinfo.BuildInfo restricted to the fields this
repository reads: the package path (info.Path), the main module's path
and version (info.Main.Path, info.Main.Version), and the compiler version
(info.GoVersion, as recorded by the toolchain, e.g. "go1.21.0"). -/
structure BuildInfo where
  GoVersion : String
  Path : String
  MainPath : String
  MainVersion : String
deriving DecidableEq, Repr

/-- Extraction failures of getGoBinaryInfo in src/gobin.go: the open error
and the buildinfo.Read error, each wrapping the path as the source's
fmt.Errorf does. -/
inductive ExtractErr
  | notReadable (path : String)
  | readFailed (path : String) (msg : String)
deriving DecidableEq, Repr

/-- Embeds errUnrecognizedFormat from debug/buildinfo: the error
readRawBuildInfo reports when the 16-byte identification read at the
start of buildinfo.Read returns fewer bytes than requested, for whatever
reason (its branch checks only the byte count, discarding the read's own
error). -/
def errUnrecognizedFormat : String := "unrecognized file format"

/-- Embeds getGoBinaryInfo from src/gobin.go. The filesystem is an abstract
open function (none models an os.Open failure) and buildinfo.Read on an
open file is an abstract read function. Reading goes through ctxReaderAt,
so when the context's Done channel is already closed the 16-byte
identification read at the start of buildinfo.Read returns
(0, errCtxReaderCancelled); readRawBuildInfo checks only that fewer than
16 bytes arrived and replaces the failure with its own
errUnrecognizedFormat, so the extraction fails with the generic
unrecognized-file-format error, not the cancelled-read error. Otherwise
the read result is returned unchanged — the function performs no
normalization of any field. -/
def getGoBinaryInfo (ctxDone : Bool) (openFile : String → Option Nat)
    (readBI : Nat → Except String BuildInfo) (path : String) :
    Except ExtractErr BuildInfo :=
  match openFile path with
  | none => Except.error (ExtractErr.notReadable path)
  | some f =>
    if ctxDone then Except.error (ExtractErr.readFailed path errUnrecognizedFormat)
    else
      match readBI f with
      | Except.error msg => Except.error (ExtractErr.readFailed path msg)
      | Except.ok info => Except.ok info

/-- Embeds the goBin struct of src/gobin.go (the fields consumed by the
update and reinstall actions). -/
structure GoBin where
  paths : List String
  goBinVer : String
  compilerPath : String
  force : Bool
  workers : Nat
  verbose : Bool
deriving DecidableEq, Repr

/-- The per-binary skip-or-act decision. -/
inductive Decision
  | Act
  | Skip
deriving DecidableEq, Repr

/-- Embeds the decision of reinstallBinaries in src/gobin.go (lines
220-233): both the binary's recorded Go version and the reference Go
version get their first occurrence of "go" replaced by "v", and the item
is skipped exactly when the rewritten binary version compares greater or
equal to the rewritten reference version and force is not set. -/
def reinstallDecide (gb : GoBin) (infoGoVersion : String) : Decision :=
  let goVersion := goToVL infoGoVersion.data
  let goBinVersion := goToVL gb.goBinVer.data
  if 0 ≤ semver.compare goVersion goBinVersion ∧ gb.force = false then
    Decision.Skip
  else Decision.Act

/-- Embeds the decision of updateBinaries in src/gobin.go (lines 164-180):
the item is skipped exactly when the current module version does not
compare strictly below the latest version. -/
def updateDecide (currentVersion latestVersion : String) : Decision :=
  if semver.Compare currentVersion latestVersion ≠ -1 then Decision.Skip
  else Decision.Act

/-- A started external build-tool subprocess: the tool path and its
argument list, as assembled by exec.CommandContext in src/gobin.go. -/
structure Invocation where
  tool : String
  args : List String
deriving DecidableEq, Repr

/-- Per-item errors of the update and reinstall actions in src/gobin.go,
with the kind vocabulary of the design (extraction failure, lookup
failure, invalid module reference, external tool failure), each keeping
the wrapped underlying detail. -/
inductive GoErr
  | extractFailed (e : ExtractErr)
  | lookupFailed (path : String) (msg : String)
  | invalidModulePath (modPath : String) (msg : String)
  | invalidModuleVersion (ver : String) (msg : String)
  | toolFailed (modPath : String) (ver : String) (msg : String)
deriving DecidableEq, Repr

/-- Whether an error is an invalid-module-reference error (an invalid
module path or an invalid module version). -/
def GoErr.isInvalidModuleRef : GoErr → Bool
  | GoErr.invalidModulePath _ _ => true
  | GoErr.invalidModuleVersion _ _ => true
  | _ => false

/-- Embeds lines 239-262 of reinstallBinaries in src/gobin.go: escape the
module path, escape the module version, and only then start the build
tool as (compilerPath install escapedPath@escapedVersion). The returned
list holds the subprocesses started; execRun gives the external result of
a started subprocess (none is a zero exit). -/
def reinstallInvoke (uL : Char → Bool) (gb : GoBin)
    (execRun : Invocation → Option String) (modulePath version : String) :
    List Invocation × Option GoErr :=
  match gomodule.EscapePath uL modulePath with
  | Except.error e => ([], some (GoErr.invalidModulePath modulePath e))
  | Except.ok ep =>
    match gomodule.EscapeVersion uL version with
    | Except.error e => ([], some (GoErr.invalidModuleVersion version e))
    | Except.ok ev =>
      let inv : Invocation := ⟨gb.compilerPath, ["install", ep ++ "@" ++ ev]⟩
      match execRun inv with
      | some msg => ([inv], some (GoErr.toolFailed modulePath version msg))
      | none => ([inv], none)

/-- Embeds lines 182-199 of updateBinaries in src/gobin.go: CheckPath on
the module path, then EscapePath, and only then start the build tool as
(compilerPath install escapedPath@latest); the version component is the
literal "latest". -/
def updateInvoke (uL : Char → Bool) (gb : GoBin)
    (execRun : Invocation → Option String) (modulePath : String) :
    List Invocation × Option GoErr :=
  match gomodule.CheckPath uL modulePath with
  | some e => ([], some (GoErr.invalidModulePath modulePath e))
  | none =>
    match gomodule.EscapePath uL modulePath with
    | Except.error e => ([], some (GoErr.invalidModulePath modulePath e))
    | Except.ok ep =>
      let inv : Invocation := ⟨gb.compilerPath, ["install", ep ++ "@latest"]⟩
      match execRun inv with
      | some msg => ([inv], some (GoErr.toolFailed modulePath "latest" msg))
      | none => ([inv], none)

/-- Observable trace of one per-item action: the files it opened, the
subprocesses it started, and its error-or-nil outcome. -/
structure ItemTrace where
  opens : List String
  execs : List Invocation
  err : Option GoErr
deriving DecidableEq, Repr

/-- Embeds the per-item closure of reinstallBinaries in src/gobin.go (lines
215-266). The closure's first step is always the file open inside
getGoBinaryInfo — the source checks no cancellation before it — so every
trace records the open; then the decision, then the invoker. -/
def perItemReinstall (gb : GoBin) (ctxDone : Bool)
    (openFile : String → Option Nat) (readBI : Nat → Except String BuildInfo)
    (uL : Char → Bool) (execRun : Invocation → Option String)
    (path : String) : ItemTrace :=
  match getGoBinaryInfo ctxDone openFile readBI path with
  | Except.error e => ⟨[path], [], some (GoErr.extractFailed e)⟩
  | Except.ok info =>
    match reinstallDecide gb info.GoVersion with
    | Decision.Skip => ⟨[path], [], none⟩
    | Decision.Act =>
      let r := reinstallInvoke uL gb execRun info.Path info.MainVersion
      ⟨[path], r.1, r.2⟩

/-- Embeds the per-item closure of updateBinaries in src/gobin.go (lines
152-203): extract, look up the latest version of the main module, decide,
and invoke the build tool at the latest version. -/
def perItemUpdate (gb : GoBin) (ctxDone : Bool)
    (openFile : String → Option Nat) (readBI : Nat → Except String BuildInfo)
    (getLatest : String → Except String String) (uL : Char → Bool)
    (execRun : Invocation → Option String) (path : String) : ItemTrace :=
  match getGoBinaryInfo ctxDone openFile readBI path with
  | Except.error e => ⟨[path], [], some (GoErr.extractFailed e)⟩
  | Except.ok info =>
    match getLatest info.MainPath with
    | Except.error msg => ⟨[path], [], some (GoErr.lookupFailed path msg)⟩
    | Except.ok ver =>
      match updateDecide info.MainVersion ver with
      | Decision.Skip => ⟨[path], [], none⟩
      | Decision.Act =>
        let r := updateInvoke uL gb execRun info.Path
        ⟨[path], r.1, r.2⟩

/-- Modelled from the spec: the scheduling and aggregation contract of the
absent github.com/simplylib/errgroup and github.com/simplylib/multierror
dependencies used by reinstallBinaries and updateBinaries. Every
submitted item runs regardless of other items' failures, producing one
outcome per path in order. -/
def egRun (action : String → Option GoErr) (paths : List String) :
    List (String × Option GoErr) :=
  paths.map fun p => (p, action p)

/-- Modelled from the spec: errgroup.Wait with multierror aggregation
returns nil when every item succeeded and otherwise the list of every
failing item's error, none collapsed or dropped. -/
def egWait (outcomes : List (String × Option GoErr)) : Option (List GoErr) :=
  match outcomes.filterMap Prod.snd with
  | [] => none
  | e :: es => some (e :: es)

/-- One batch run: submit every path, then wait. -/
def runBatch (action : String → Option GoErr) (paths : List String) :
    Option (List GoErr) :=
  egWait (egRun action paths)

/-- Maps the reinstall action over a batch, collecting each item's trace;
the errgroup (which receives no context) runs every submitted closure. -/
def reinstallRun (gb : GoBin) (ctxDone : Bool)
    (openFile : String → Option Nat) (readBI : Nat → Except String BuildInfo)
    (uL : Char → Bool) (execRun : Invocation → Option String)
    (paths : List String) : List ItemTrace :=
  paths.map (perItemReinstall gb ctxDone openFile readBI uL execRun)

/-- Modelled from the spec: a state of the bounded-concurrency Task Runner
of the absent github.com/simplylib/errgroup dependency — the paths not
yet started, those in flight, and the settled outcomes. -/
structure RunnerState where
  pending : List String
  inflight : List String
  done : List (String × Option GoErr)
deriving DecidableEq, Repr

/-- Modelled from the spec: the Task Runner's scheduler steps. A pending
item may start only while fewer than the concurrency limit are in
flight; an in-flight item may finish at any time, settling its outcome. -/
inductive RunnerStep (limit : Nat) (action : String → Option GoErr) :
    RunnerState → RunnerState → Prop
  | start (p : String) (rest infl : List String)
      (d : List (String × Option GoErr)) :
      infl.length < limit →
      RunnerStep limit action ⟨p :: rest, infl, d⟩ ⟨rest, p :: infl, d⟩
  | finish (p : String) (pen infl : List String)
      (d : List (String × Option GoErr)) :
      p ∈ infl →
      RunnerStep limit action ⟨pen, infl, d⟩
        ⟨pen, infl.erase p, (p, action p) :: d⟩

/-- Reachability of the Task Runner transition system. -/
def RunnerReach (limit : Nat) (action : String → Option GoErr)
    (s t : RunnerState) : Prop :=
  Relation.ReflTransGen (RunnerStep limit action) s t

/-- Characterization of the reinstall decision branch, shared by the
theorems about the reinstall policy. -/
theorem reinstallDecide_act_char (gb : GoBin) (v : String) :
    reinstallDecide gb v = Decision.Act ↔
      (semver.compare (goToVL v.data) (goToVL gb.goBinVer.data) < 0 ∨
        gb.force = true) := by
  simp only [reinstallDecide]
  split
  · rename_i h
    constructor
    · intro hact; exact absurd hact (by simp)
    · intro hor
      rcases hor with hlt | hf
      · omega
      · rw [hf] at h; simp at h
  · rename_i h
    rw [Decidable.not_and_iff_or_not] at h
    constructor
    · intro _
      rcases h with h1 | h2
      · exact Or.inl (by omega)
      · exact Or.inr (by simpa using h2)
    · intro _; rfl

/-- C1: in reinstall mode the decision is Act exactly when the rewritten
build compiler version compares strictly below the rewritten reference
compiler version, or unconditionally when force is set; otherwise (equal
or higher build version and force unset) it is Skip. -/
theorem reinstall_decide_act_iff (gb : GoBin) (v : String) :
    reinstallDecide gb v = Decision.Act ↔
      (semver.compare (goToVL v.data) (goToVL gb.goBinVer.data) < 0 ∨
        gb.force = true) :=
  reinstallDecide_act_char gb v

/-- C2: in update mode the decision is Act exactly when the current module
version compares strictly below the latest version; an equal or ahead
current version yields Skip. The embedded decision is a pure function of
its two string arguments, mutating neither. -/
theorem update_decide_policy (cur lat : String) :
    (updateDecide cur lat = Decision.Act ↔ semver.Compare cur lat = -1) ∧
    (semver.Compare cur lat = 0 → updateDecide cur lat = Decision.Skip) ∧
    (semver.Compare cur lat = 1 → updateDecide cur lat = Decision.Skip) := by
  refine ⟨?_, ?_, ?_⟩
  · unfold updateDecide
    split
    · rename_i h
      constructor
      · intro hact; exact absurd hact (by simp)
      · intro heq; exact absurd heq h
    · rename_i h
      simp at h
      exact ⟨fun _ => h, fun _ => rfl⟩
  · intro h0; unfold updateDecide; rw [h0]; simp
  · intro h1; unfold updateDecide; rw [h1]; simp

/-- When the left version fails to parse, Compare follows the source's
invalid-version rules: equal to another invalid version, strictly below
any valid one. -/
theorem semver.compare_left_invalid (v w : List Char) (hv : semver.parse v = none) :
    ((semver.parse w).isSome → semver.compare v w = -1) ∧
    (semver.parse w = none → semver.compare v w = 0) := by
  constructor
  · intro hw
    unfold semver.compare
    rw [hv]
    cases hsw : semver.parse w
    · rw [hsw] at hw; simp at hw
    · simp
  · intro hw
    unfold semver.compare
    rw [hv, hw]

/-- C10: with force unset, a binary whose rewritten compiler version is not
a valid semantic version is reinstalled exactly when the rewritten
reference version is valid; when both are invalid they compare equal and
the binary is skipped. -/
theorem reinstall_decide_invalid_versions (gb : GoBin) (v : String)
    (hf : gb.force = false)
    (hv : semver.parse (goToVL v.data) = none) :
    (semver.IsValidL (goToVL gb.goBinVer.data) = true →
      reinstallDecide gb v = Decision.Act) ∧
    (semver.IsValidL (goToVL gb.goBinVer.data) = false →
      reinstallDecide gb v = Decision.Skip) := by
  have hmain := semver.compare_left_invalid (goToVL v.data)
    (goToVL gb.goBinVer.data) hv
  constructor
  · intro hvalid
    have hc : semver.compare (goToVL v.data) (goToVL gb.goBinVer.data) = -1 :=
      hmain.1 (by simpa [semver.IsValidL] using hvalid)
    rw [reinstallDecide_act_char gb v]
    exact Or.inl (by omega)
  · intro hinvalid
    have hc : semver.compare (goToVL v.data) (goToVL gb.goBinVer.data) = 0 := by
      apply hmain.2
      simpa [semver.IsValidL, Option.isSome_iff_exists] using hinvalid
    simp only [reinstallDecide]
    rw [hc, hf]
    simp

theorem reinstall_decide_invalid_versions_witness :
    reinstallDecide ⟨[], "go1.22.0", "go", false, 1, false⟩ "devel" =
        Decision.Act ∧
      reinstallDecide ⟨[], "unknown", "go", false, 1, false⟩ "devel" =
        Decision.Skip :=
  ⟨(reinstall_decide_invalid_versions ⟨[], "go1.22.0", "go", false, 1, false⟩
      "devel" rfl (by decide)).1 (by decide),
   (reinstall_decide_invalid_versions ⟨[], "unknown", "go", false, 1, false⟩
      "devel" rfl (by decide)).2 (by decide)⟩

/-- C9: the context-aware ReadAt returns zero bytes and the dedicated
cancelled error when the context's Done channel is already closed —
independently of the underlying reader, which is therefore never
consulted — and otherwise returns exactly the underlying reader's
result. -/
theorem ctx_read_at_transparency (r r2 : Nat → Int → Nat × Option String)
    (p : Nat) (off : Int) :
    ctxReadAt true r p off = (0, some errCtxReaderCancelled) ∧
    ctxReadAt true r p off = ctxReadAt true r2 p off ∧
    ctxReadAt false r p off = r p off := by
  refine ⟨rfl, rfl, rfl⟩

/-- C8: the update-mode per-item action is identical whether force is set
or not — force never reaches the update decision or its invocation. -/
theorem update_force_noninterference (gb : GoBin) (ctxDone : Bool)
    (openFile : String → Option Nat) (readBI : Nat → Except String BuildInfo)
    (getLatest : String → Except String String) (uL : Char → Bool)
    (execRun : Invocation → Option String) (path : String) :
    perItemUpdate { gb with force := true } ctxDone openFile readBI getLatest
        uL execRun path =
      perItemUpdate { gb with force := false } ctxDone openFile readBI getLatest
        uL execRun path := by
  cases gb
  rfl

/-- C4 (amended): the extractor returns the build record exactly as read
from the artifact — the compiler version keeps its toolchain prefix and
the module version is passed through verbatim; no field is normalized. -/
theorem get_go_binary_info_verbatim (ctxDone : Bool)
    (openFile : String → Option Nat) (readBI : Nat → Except String BuildInfo)
    (path : String) (info : BuildInfo)
    (h : getGoBinaryInfo ctxDone openFile readBI path = Except.ok info) :
    ∃ f, openFile path = some f ∧ readBI f = Except.ok info := by
  unfold getGoBinaryInfo at h
  cases hopen : openFile path with
  | none => rw [hopen] at h; cases h
  | some f =>
    rw [hopen] at h
    refine ⟨f, rfl, ?_⟩
    by_cases hc : ctxDone = true
    · rw [hc] at h; simp at h
    · simp only [Bool.not_eq_true] at hc
      rw [hc] at h
      simp only [Bool.false_eq_true, if_false] at h
      cases hr : readBI f with
      | error msg => rw [hr] at h; cases h
      | ok info2 => rw [hr] at h; cases h; rfl

theorem get_go_binary_info_verbatim_witness :
    ∃ f, (some 1 : Option Nat) = some f ∧
      (Except.ok (⟨"go1.21.0", "example.com/tool", "example.com/tool",
          "v1.2.3"⟩ : BuildInfo) : Except String BuildInfo) =
        Except.ok ⟨"go1.21.0", "example.com/tool", "example.com/tool",
          "v1.2.3"⟩ := by
  exact get_go_binary_info_verbatim false (fun _ => some 1)
    (fun _ => Except.ok ⟨"go1.21.0", "example.com/tool", "example.com/tool",
      "v1.2.3"⟩) "p"
    ⟨"go1.21.0", "example.com/tool", "example.com/tool", "v1.2.3"⟩ rfl

/-- C4 fails as stated: an artifact recorded as built with compiler version
"go1.21.0" is extracted with its compilerVersion still carrying the
toolchain-name prefix "go" — the extractor strips nothing (the go-to-v
rewrite happens later, inside reinstallBinaries). -/
theorem get_go_binary_info_keeps_prefix :
    (getGoBinaryInfo false (fun _ => some 1)
        (fun _ => Except.ok ⟨"go1.21.0", "example.com/tool",
          "example.com/tool", "v1.2.3"⟩) "p").toOption.map BuildInfo.GoVersion =
        some "go1.21.0" ∧
      "go".data.isPrefixOf "go1.21.0".data = true := by
  exact ⟨rfl, by decide⟩

/-- C3: every path in a batch is attempted and yields exactly one outcome;
the run returns nil exactly when every item succeeded, and otherwise an
aggregate preserving each failing item's error. -/
theorem run_batch_aggregation (action : String → Option GoErr)
    (paths : List String) :
    ((egRun action paths).map Prod.fst = paths) ∧
    (runBatch action paths = none ↔ ∀ p ∈ paths, action p = none) ∧
    (∀ p e, p ∈ paths → action p = some e →
      ∃ l, runBatch action paths = some l ∧ e ∈ l) := by
  have hfm : (egRun action paths).filterMap Prod.snd = paths.filterMap action := by
    simp [egRun, List.filterMap_map]
    rfl
  refine ⟨?_, ?_, ?_⟩
  · have hid : (Prod.fst ∘ fun p => (p, action p)) = fun p : String => p := rfl
    simp only [egRun, List.map_map, hid, List.map_id']
  · unfold runBatch egWait
    rw [hfm]
    cases h : paths.filterMap action with
    | nil =>
      rw [List.filterMap_eq_nil_iff] at h
      simpa using h
    | cons e es =>
      simp only [reduceCtorEq, false_iff, not_forall]
      have hmem : e ∈ paths.filterMap action := by
        rw [h]; exact List.mem_cons_self e es
      rcases List.mem_filterMap.mp hmem with ⟨p, hp, hpe⟩
      exact ⟨p, hp, by rw [hpe]; exact Option.some_ne_none e⟩
  · intro p e hp he
    have hmem : e ∈ paths.filterMap action := List.mem_filterMap.mpr ⟨p, hp, he⟩
    unfold runBatch egWait
    rw [hfm]
    cases h : paths.filterMap action with
    | nil => rw [h] at hmem; cases hmem
    | cons x xs =>
      refine ⟨x :: xs, rfl, ?_⟩
      rw [h] at hmem
      exact hmem

theorem run_batch_aggregation_witness :
    ∃ l, runBatch
        (fun p => if p = "bad" then some (GoErr.lookupFailed "bad" "boom")
          else none) ["ok", "bad"] = some l ∧
      GoErr.lookupFailed "bad" "boom" ∈ l :=
  (run_batch_aggregation
      (fun p => if p = "bad" then some (GoErr.lookupFailed "bad" "boom")
        else none) ["ok", "bad"]).2.2
    "bad" (GoErr.lookupFailed "bad" "boom") (by decide) (by decide)

/-- C6: both the module path and the version are validated and escaped
before the build tool runs — an invalid path or version yields an
invalid-module-reference error with no subprocess started, and any
started subprocess carries exactly the escaped path and version (or the
literal latest in update mode, whose path is checked first). -/
theorem invoke_validates_before_exec (uL : Char → Bool) (gb : GoBin)
    (execRun : Invocation → Option String) (p v : String) :
    (((∃ e, gomodule.EscapePath uL p = Except.error e) ∨
        (∃ e, gomodule.EscapeVersion uL v = Except.error e)) →
      (reinstallInvoke uL gb execRun p v).1 = [] ∧
        ∃ er, (reinstallInvoke uL gb execRun p v).2 = some er ∧
          er.isInvalidModuleRef = true) ∧
    (∀ inv ∈ (reinstallInvoke uL gb execRun p v).1,
      ∃ ep ev, gomodule.EscapePath uL p = Except.ok ep ∧
        gomodule.EscapeVersion uL v = Except.ok ev ∧
        inv = ⟨gb.compilerPath, ["install", ep ++ "@" ++ ev]⟩) ∧
    ((∃ e, gomodule.CheckPath uL p = some e) →
      (updateInvoke uL gb execRun p).1 = [] ∧
        ∃ er, (updateInvoke uL gb execRun p).2 = some er ∧
          er.isInvalidModuleRef = true) := by
  refine ⟨?_, ?_, ?_⟩
  · intro hbad
    unfold reinstallInvoke
    cases hp : gomodule.EscapePath uL p with
    | error e => exact ⟨rfl, GoErr.invalidModulePath p e, rfl, rfl⟩
    | ok ep =>
      cases hv : gomodule.EscapeVersion uL v with
      | error e => exact ⟨rfl, GoErr.invalidModuleVersion v e, rfl, rfl⟩
      | ok ev =>
        exfalso
        rcases hbad with ⟨e, he⟩ | ⟨e, he⟩
        · rw [hp] at he; cases he
        · rw [hv] at he; cases he
  · intro inv hinv
    unfold reinstallInvoke at hinv
    split at hinv
    · simp at hinv
    · rename_i ep hp
      split at hinv
      · simp at hinv
      · rename_i ev hv
        refine ⟨ep, ev, hp, hv, ?_⟩
        rcases hr : execRun ⟨gb.compilerPath, ["install", ep ++ "@" ++ ev]⟩ with _ | msg <;>
          · rw [show (⟨gb.compilerPath, ["install", ep ++ "@" ++ ev]⟩ : Invocation) =
                { tool := gb.compilerPath, args := ["install", ep ++ "@" ++ ev] } from rfl] at hr
            simp only [hr] at hinv
            simpa using hinv
  · intro hbad
    unfold updateInvoke
    cases hc : gomodule.CheckPath uL p with
    | some e => exact ⟨rfl, GoErr.invalidModulePath p e, rfl, rfl⟩
    | none =>
      cases hp : gomodule.EscapePath uL p with
      | error e => exact ⟨rfl, GoErr.invalidModulePath p e, rfl, rfl⟩
      | ok ep =>
        exfalso
        rcases hbad with ⟨e, he⟩
        rw [hc] at he
        cases he

theorem invoke_validates_before_exec_witness :
    (reinstallInvoke (fun _ => false) ⟨[], "go1.22.0", "go", false, 1, false⟩
        (fun _ => none) "nodots" "v1.0.0").1 = [] ∧
      ∃ er, (reinstallInvoke (fun _ => false)
          ⟨[], "go1.22.0", "go", false, 1, false⟩
          (fun _ => none) "nodots" "v1.0.0").2 = some er ∧
        er.isInvalidModuleRef = true := by
  exact (invoke_validates_before_exec (fun _ => false)
      ⟨[], "go1.22.0", "go", false, 1, false⟩ (fun _ => none)
      "nodots" "v1.0.0").1
    (Or.inl ⟨"missing dot in first path element", rfl⟩)

/-- Invariant of the Task Runner transition system: in any reachable state
the in-flight count is at most the limit, and the pending, in-flight and
settled paths together are a permutation of the batch. -/
theorem runner_inv (limit : Nat) (action : String → Option GoErr)
    (paths : List String) (s : RunnerState)
    (h : RunnerReach limit action ⟨paths, [], []⟩ s) :
    s.inflight.length ≤ limit ∧
      (s.pending ++ s.inflight ++ s.done.map Prod.fst).Perm paths := by
  induction h with
  | refl => simp
  | tail hr hs ih =>
    rcases ih with ⟨ihlen, ihperm⟩
    cases hs with
    | start p rest infl d hlt =>
      refine ⟨by simpa using hlt, ?_⟩
      refine List.Perm.trans ?_ ihperm
      simp only [List.append_assoc]
      exact List.perm_middle
    | finish p pen infl d hmem =>
      refine ⟨le_trans (List.Sublist.length_le (List.erase_sublist p infl))
        ihlen, ?_⟩
      refine List.Perm.trans ?_ ihperm
      simp only [List.map_cons, List.append_assoc]
      have h1 : (infl.erase p ++ p :: d.map Prod.fst).Perm
          (infl ++ d.map Prod.fst) := by
        refine List.Perm.trans List.perm_middle ?_
        exact List.Perm.append_right (d.map Prod.fst)
          (List.perm_cons_erase hmem).symm
      exact List.Perm.append_left pen h1

/-- C5: the Task Runner with concurrency limit K never has more than K
actions in flight in any reachable state, and when a run completes (no
pending and no in-flight items) it has produced exactly one outcome per
batch path, however many items failed. -/
theorem runner_bounded_and_complete (limit : Nat)
    (action : String → Option GoErr) (paths : List String) (s : RunnerState)
    (h : RunnerReach limit action ⟨paths, [], []⟩ s) :
    s.inflight.length ≤ limit ∧
      (s.pending = [] → s.inflight = [] →
        (s.done.map Prod.fst).Perm paths) := by
  rcases runner_inv limit action paths s h with ⟨hlen, hperm⟩
  refine ⟨hlen, fun hp hi => ?_⟩
  rw [hp, hi] at hperm
  simpa using hperm

theorem runner_bounded_and_complete_witness :
    (RunnerState.mk [] [] [("b", none), ("a", none)]).inflight.length ≤ 1 ∧
      (([("b", (none : Option GoErr)), ("a", none)].map Prod.fst).Perm
        ["a", "b"]) := by
  have s1 : RunnerStep 1 (fun _ => none) ⟨["a", "b"], [], []⟩
      ⟨["b"], ["a"], []⟩ :=
    RunnerStep.start "a" ["b"] [] [] (by decide)
  have s2 : RunnerStep 1 (fun _ => none) ⟨["b"], ["a"], []⟩
      ⟨["b"], [], [("a", none)]⟩ :=
    RunnerStep.finish "a" ["b"] ["a"] [] (by simp)
  have s3 : RunnerStep 1 (fun _ => none) ⟨["b"], [], [("a", none)]⟩
      ⟨[], ["b"], [("a", none)]⟩ :=
    RunnerStep.start "b" [] [] [("a", none)] (by decide)
  have s4 : RunnerStep 1 (fun _ => none) ⟨[], ["b"], [("a", none)]⟩
      ⟨[], [], [("b", none), ("a", none)]⟩ :=
    RunnerStep.finish "b" [] ["b"] [("a", none)] (by simp)
  have hreach : RunnerReach 1 (fun _ => none) ⟨["a", "b"], [], []⟩
      ⟨[], [], [("b", none), ("a", none)]⟩ :=
    Relation.ReflTransGen.tail
      (Relation.ReflTransGen.tail
        (Relation.ReflTransGen.tail
          (Relation.ReflTransGen.tail Relation.ReflTransGen.refl s1) s2) s3) s4
  have hmain := runner_bounded_and_complete 1 (fun _ => none) ["a", "b"]
    ⟨[], [], [("b", none), ("a", none)]⟩ hreach
  exact ⟨hmain.1, hmain.2 rfl rfl⟩

/-- C7 fails as stated: with the cancellation signal fired before any item
has started (M = 0 of N = 1), the per-item action still starts — the loop
submits every path and the errgroup receives no context, so the closure
runs and opens the file — contradicting that at most M invocations are
attempted; and the item's recorded outcome is the generic
unrecognized-file-format extraction failure, equal to the outcome of an
uncancelled run over a malformed artifact, so no Cancelled outcome
distinct from Failed exists. -/
theorem reinstall_run_cancel_counterexample :
    ((reinstallRun ⟨["a"], "go1.22.0", "go", false, 1, false⟩ true
        (fun _ => some 1)
        (fun _ => Except.ok ⟨"go1.21.0", "example.com/tool",
          "example.com/tool", "v1.2.3"⟩)
        (fun _ => false) (fun _ => none) ["a"]).map ItemTrace.opens =
      [["a"]]) ∧
    ((reinstallRun ⟨["a"], "go1.22.0", "go", false, 1, false⟩ true
        (fun _ => some 1)
        (fun _ => Except.ok ⟨"go1.21.0", "example.com/tool",
          "example.com/tool", "v1.2.3"⟩)
        (fun _ => false) (fun _ => none) ["a"]).map ItemTrace.opens ≠
      [[]]) ∧
    ((reinstallRun ⟨["a"], "go1.22.0", "go", false, 1, false⟩ true
        (fun _ => some 1)
        (fun _ => Except.ok ⟨"go1.21.0", "example.com/tool",
          "example.com/tool", "v1.2.3"⟩)
        (fun _ => false) (fun _ => none) ["a"]).map ItemTrace.err =
      (reinstallRun ⟨["a"], "go1.22.0", "go", false, 1, false⟩ false
        (fun _ => some 1)
        (fun _ => Except.error errUnrecognizedFormat)
        (fun _ => false) (fun _ => none) ["a"]).map ItemTrace.err) ∧
    ((reinstallRun ⟨["a"], "go1.22.0", "go", false, 1, false⟩ true
        (fun _ => some 1)
        (fun _ => Except.ok ⟨"go1.21.0", "example.com/tool",
          "example.com/tool", "v1.2.3"⟩)
        (fun _ => false) (fun _ => none) ["a"]).map ItemTrace.err =
      [some (GoErr.extractFailed
        (ExtractErr.readFailed "a" errUnrecognizedFormat))]) := by
  refine ⟨rfl, by decide, rfl, rfl⟩

/-- C7 (amended): after the cancellation signal has fired, the remaining
items' actions still start, but each aborts at its first metadata read —
recorded as the generic unrecognized-file-format extraction failure that
a malformed artifact also produces, not as a distinct Cancelled outcome —
starts no subprocess, and the run still yields exactly one outcome per
path. -/
theorem reinstall_run_after_cancel (gb : GoBin)
    (openFile : String → Option Nat) (readBI : Nat → Except String BuildInfo)
    (uL : Char → Bool) (execRun : Invocation → Option String)
    (paths : List String)
    (hopen : ∀ p ∈ paths, (openFile p).isSome = true) :
    (reinstallRun gb true openFile readBI uL execRun paths).length =
        paths.length ∧
      ∀ t ∈ reinstallRun gb true openFile readBI uL execRun paths,
        t.execs = [] ∧ ∃ p ∈ paths, t.opens = [p] ∧
          t.err = some (GoErr.extractFailed
            (ExtractErr.readFailed p errUnrecognizedFormat)) := by
  constructor
  · simp [reinstallRun]
  · intro t ht
    rcases List.mem_map.mp ht with ⟨p, hp, rfl⟩
    have hs := hopen p hp
    rcases Option.isSome_iff_exists.mp hs with ⟨f, hf⟩
    unfold perItemReinstall getGoBinaryInfo
    rw [hf]
    exact ⟨rfl, p, hp, rfl, rfl⟩

theorem reinstall_run_after_cancel_witness :
    (reinstallRun ⟨["a"], "go1.22.0", "go", false, 1, false⟩ true
        (fun _ => some 1)
        (fun _ => Except.ok ⟨"go1.21.0", "example.com/tool",
          "example.com/tool", "v1.2.3"⟩)
        (fun _ => false) (fun _ => none) ["a"]).length = 1 ∧
      ∀ t ∈ reinstallRun ⟨["a"], "go1.22.0", "go", false, 1, false⟩ true
          (fun _ => some 1)
          (fun _ => Except.ok ⟨"go1.21.0", "example.com/tool",
            "example.com/tool", "v1.2.3"⟩)
          (fun _ => false) (fun _ => none) ["a"],
        t.execs = [] ∧ ∃ p ∈ ["a"], t.opens = [p] ∧
          t.err = some (GoErr.extractFailed
            (ExtractErr.readFailed p errUnrecognizedFormat)) := by
  exact reinstall_run_after_cancel ⟨["a"], "go1.22.0", "go", false, 1, false⟩
    (fun _ => some 1)
    (fun _ => Except.ok ⟨"go1.21.0", "example.com/tool",
      "example.com/tool", "v1.2.3"⟩)
    (fun _ => false) (fun _ => none) ["a"] (fun _ _ => rfl)

